import Mathlib

/-
  Verification of the jsonschema-go schema generator.

  The Go sources are shallowly embedded:
    * `tags.go`      : `parseJSONTag`, `parseValidationTag`, `isRequiredField`
    * `schema.go`    : `Generate`, `generateSchema`, `generateStructSchema`
    * `constants.go` : the schema keyword constants and `getTypeSchema`
  Go strings are Lean `String`s; the `strings`/`strconv` library helpers the
  code calls (`Split`, `SplitN`, `TrimSpace`, `Contains`, `ParseFloat`,
  `Atoi`) are embedded as executable functions over `List Char`.
  `reflect.Type` is embedded as the inductive `GoType`; `map[string]any`
  schema values are embedded as the association list `Schema` whose
  `get?`/`set` have exactly Go's map lookup/assignment semantics.
-/

set_option autoImplicit false

/-! ## Character-level embeddings of the Go `strings` helpers -/

/-- The whitespace set of Go's `unicode.IsSpace` restricted to the Latin-1
characters it recognises (space, tab, newline, vertical tab, form feed,
carriage return, NEL, NBSP). -/
def goIsSpace (c : Char) : Bool :=
  c == ' ' || c == '\t' || c == '\n' || c == Char.ofNat 11 ||
  c == Char.ofNat 12 || c == '\r' || c == Char.ofNat 133 || c == Char.ofNat 160

/-- `strings.TrimSpace` on a character list: drop whitespace from both ends. -/
def trimSpaceL (l : List Char) : List Char :=
  ((l.dropWhile goIsSpace).reverse.dropWhile goIsSpace).reverse

/-- `strings.TrimSpace` on strings. -/
def trimSpace (s : String) : String :=
  String.mk (trimSpaceL s.toList)

/-- Does the list `l` start with the list `pat`? -/
def startsWith : List Char → List Char → Bool
  | [], _ => true
  | _ :: _, [] => false
  | a :: as, b :: bs => a == b && startsWith as bs

/-- `strings.Contains` on character lists: does `l` contain `needle` as a
contiguous run?  (`containsL needle [] = needle.isEmpty`, matching Go's
`Contains(s, "") = true`.) -/
def containsL (needle : List Char) : List Char → Bool
  | [] => startsWith needle []
  | c :: rest => startsWith needle (c :: rest) || containsL needle rest

/-- `strings.Contains s sub` on strings. -/
def goContains (s sub : String) : Bool :=
  containsL sub.toList s.toList

/-- `strings.Split s sep` for a one-character separator, on character lists.
Like Go's `Split`, empty segments are kept and the result is never empty. -/
def splitOnCharL (sep : Char) : List Char → List (List Char)
  | [] => [[]]
  | c :: cs =>
    if c == sep then [] :: splitOnCharL sep cs
    else
      match splitOnCharL sep cs with
      | [] => [[c]]
      | s :: rest => (c :: s) :: rest

/-- `strings.SplitN s sep 2` for a one-character separator, on character
lists, returning the parts before and after the first `sep`.  The caller in
`parseValidationTag` only invokes it on lists that contain `sep` (guarded by
`strings.Contains`), where the two agree; on a `sep`-free list this returns
`(l, [])`. -/
def splitTwoL (sep : Char) : List Char → List Char × List Char
  | [] => ([], [])
  | c :: cs =>
    if c == sep then ([], cs)
    else
      let p := splitTwoL sep cs
      (c :: p.1, p.2)

/-! ## Embeddings of the `strconv` number parsers -/

/-- Value of a digit run, most significant first. -/
def digitsToNat (l : List Char) : Nat :=
  l.foldl (fun n c => n * 10 + (c.toNat - 48)) 0

/-- An exact decimal floating-point value `mantissa * 10 ^ exp10`.
Modelled from the spec: the schema stores the `float64` produced by
`strconv.ParseFloat`; no claim depends on binary-float rounding, so the
parsed number is kept exactly. -/
structure DecFloat where
  mantissa : Int
  exp10 : Int
deriving DecidableEq, Repr

/-- Modelled from the spec: `strconv.ParseFloat(s, 64)` on its decimal
fragment — optional sign, digits with an optional fraction (at least one
digit overall), and an optional signed decimal exponent.  Returns `none`
exactly when Go would return a syntax error on that fragment. -/
def goParseFloat (s : String) : Option DecFloat :=
  let l := s.toList
  let sl : Int × List Char :=
    match l with
    | '+' :: rest => (1, rest)
    | '-' :: rest => (-1, rest)
    | _ => (1, l)
  let intPart := sl.2.takeWhile Char.isDigit
  let l2 := sl.2.dropWhile Char.isDigit
  let fl : List Char × List Char :=
    match l2 with
    | '.' :: rest => (rest.takeWhile Char.isDigit, rest.dropWhile Char.isDigit)
    | _ => ([], l2)
  if intPart.isEmpty && fl.1.isEmpty then none
  else
    let mant : Int := sl.1 * (digitsToNat (intPart ++ fl.1) : Int)
    match fl.2 with
    | [] => some ⟨mant, -(fl.1.length : Int)⟩
    | e :: rest =>
      if e == 'e' || e == 'E' then
        let es : Int × List Char :=
          match rest with
          | '+' :: r => (1, r)
          | '-' :: r => (-1, r)
          | _ => (1, rest)
        let ed := es.2.takeWhile Char.isDigit
        let r2 := es.2.dropWhile Char.isDigit
        if ed.isEmpty || !r2.isEmpty then none
        else some ⟨mant, es.1 * (digitsToNat ed : Int) - (fl.1.length : Int)⟩
      else none

/-- Modelled from the spec: `strconv.Atoi` — optional sign followed by at
least one digit (the 64-bit range error is not modelled; no claim involves
out-of-range literals). -/
def goAtoi (s : String) : Option Int :=
  let l := s.toList
  let sl : Int × List Char :=
    match l with
    | '+' :: rest => (1, rest)
    | '-' :: rest => (-1, rest)
    | _ => (1, l)
  if sl.2.isEmpty || !sl.2.all Char.isDigit then none
  else some (sl.1 * (digitsToNat sl.2 : Int))

/-! ## The schema document model

Go's `map[string]any` schema fragments become the association list `Schema`
with Go-map `get?`/`set` semantics (`set` overwrites an existing key in
place, otherwise appends; keys built this way stay unique). -/

mutual
inductive JValue : Type where
  | str : String → JValue
  | num : DecFloat → JValue
  | intV : Int → JValue
  | boolV : Bool → JValue
  | strList : List String → JValue
  | obj : Schema → JValue

inductive Schema : Type where
  | nil : Schema
  | cons : String → JValue → Schema → Schema
end

deriving instance DecidableEq for JValue
deriving instance DecidableEq for Schema

deriving instance DecidableEq for Except

/-- Go map lookup `m[k]` (with its "present" flag folded into `Option`). -/
def Schema.get? : Schema → String → Option JValue
  | .nil, _ => none
  | .cons k v rest, k' => if k' = k then some v else rest.get? k'

/-- Go map assignment `m[k] = v`. -/
def Schema.set : Schema → String → JValue → Schema
  | .nil, k, v => .cons k v .nil
  | .cons k0 v0 rest, k, v =>
    if k = k0 then .cons k0 v rest else .cons k0 v0 (rest.set k v)

/-- The keys of a schema fragment, in construction order. -/
def Schema.keys : Schema → List String
  | .nil => []
  | .cons k _ rest => k :: rest.keys

/-! ## The type model (`reflect.Type` / `reflect.Kind`) -/

/-- The primitive kinds handled by `getTypeSchema`. -/
inductive PrimKind : Type where
  | string | int | int8 | int16 | int32 | int64
  | uint | uint8 | uint16 | uint32 | uint64
  | float32 | float64 | bool
deriving DecidableEq, Repr

/-- Kinds with no JSON Schema analogue (hit `generateSchema`'s fallback). -/
inductive OtherKind : Type where
  | func | chan | iface | complex64 | complex128 | uintptr
deriving DecidableEq, Repr

mutual
/-- A Go type as seen through `reflect`: primitive kind, slice, array, map,
pointer, struct (with its fields), or one of the unsupported kinds. -/
inductive GoType : Type where
  | prim : PrimKind → GoType
  | sliceOf : GoType → GoType
  | arrayOf : GoType → GoType
  | mapOf : GoType → GoType → GoType
  | ptrTo : GoType → GoType
  | structOf : FieldList → GoType
  | otherKind : OtherKind → GoType

/-- The fields of a struct type, in declaration order. -/
inductive FieldList : Type where
  | nil : FieldList
  | cons : StructField → FieldList → FieldList

/-- One `reflect.StructField`: name, exportedness, the two tag strings
(`field.Tag.Get ("json")` and `field.Tag.Get ("validate")`, empty when the
tag is absent), and the declared type. -/
inductive StructField : Type where
  | mk : (name : String) → (exported : Bool) → (jsonTag : String) →
         (validateTag : String) → (type : GoType) → StructField
end

/-- `reflect.Kind.String()` for a primitive kind. -/
def PrimKind.kindName : PrimKind → String
  | .string => "string"
  | .int => "int"
  | .int8 => "int8"
  | .int16 => "int16"
  | .int32 => "int32"
  | .int64 => "int64"
  | .uint => "uint"
  | .uint8 => "uint8"
  | .uint16 => "uint16"
  | .uint32 => "uint32"
  | .uint64 => "uint64"
  | .float32 => "float32"
  | .float64 => "float64"
  | .bool => "bool"

/-- `reflect.Kind.String()` for the unsupported kinds. -/
def OtherKind.kindName : OtherKind → String
  | .func => "func"
  | .chan => "chan"
  | .iface => "interface"
  | .complex64 => "complex64"
  | .complex128 => "complex128"
  | .uintptr => "uintptr"

/-- `t.Kind().String()`. -/
def GoType.kindName : GoType → String
  | .prim k => k.kindName
  | .sliceOf _ => "slice"
  | .arrayOf _ => "array"
  | .mapOf _ _ => "map"
  | .ptrTo _ => "ptr"
  | .structOf _ => "struct"
  | .otherKind k => k.kindName

/-- `t.Kind() == reflect.Ptr`. -/
def GoType.isPtr : GoType → Bool
  | .ptrTo _ => true
  | _ => false

/-- `t.Kind() == reflect.Struct`. -/
def GoType.isStruct : GoType → Bool
  | .structOf _ => true
  | _ => false

/-- `t.Kind() == reflect.String` (used on map key types). -/
def GoType.isStringKind : GoType → Bool
  | .prim .string => true
  | _ => false

/-! ## `constants.go` -/

def TypeString : String := "string"
def TypeInteger : String := "integer"
def TypeNumber : String := "number"
def TypeBoolean : String := "boolean"
def TypeObject : String := "object"
def TypeArray : String := "array"

def PropType : String := "type"
def PropProperties : String := "properties"
def PropAdditionalProperties : String := "additionalProperties"
def PropRequired : String := "required"
def PropItems : String := "items"
def PropMinimum : String := "minimum"
def PropMaximum : String := "maximum"
def PropExclusiveMinimum : String := "exclusiveMinimum"
def PropExclusiveMaximum : String := "exclusiveMaximum"
def PropMultipleOf : String := "multipleOf"
def PropPattern : String := "pattern"
def PropFormat : String := "format"
def PropMinItems : String := "minItems"
def PropMaxItems : String := "maxItems"

/-- The schema name of a primitive kind, following `getTypeSchema`'s switch
(all signed and unsigned integer kinds map to `integer`, both float kinds to
`number`). -/
def primTypeName : PrimKind → String
  | .string => TypeString
  | .int | .int8 | .int16 | .int32 | .int64 => TypeInteger
  | .uint | .uint8 | .uint16 | .uint32 | .uint64 => TypeInteger
  | .float32 | .float64 => TypeNumber
  | .bool => TypeBoolean

/-- `getTypeSchema`: the one-key schema of a basic kind, `none` (Go `nil`)
for every other kind. -/
def getTypeSchema : GoType → Option Schema
  | .prim k => some (.cons PropType (.str (primTypeName k)) .nil)
  | _ => none

/-! ## `tags.go` -/

/-- `parseJSONTag`: split a `json` tag into the exposed name, the
`omitempty` flag, and the skip flag.  (`""` → defaults; `"-"` → skip;
otherwise the first comma-segment is the name — taken verbatim — and any
later segment equal to `omitempty` after trimming sets the flag.) -/
def parseJSONTag (tag : String) : String × Bool × Bool :=
  if tag = "" then ("", false, false)
  else if tag = "-" then ("", false, true)
  else
    let parts := splitOnCharL ',' tag.toList
    let name := String.mk (parts.headD [])
    let omitempty := (parts.drop 1).any (fun p => trimSpaceL p = ("omitempty").toList)
    (name, omitempty, false)

/-- The `validFormats` set of `parseValidationTag`'s `format` case. -/
def validFormats : List String :=
  ["date-time", "time", "date", "duration", "email", "hostname",
   "ipv4", "ipv6", "uuid"]

/-- The `switch key` statement inside `parseValidationTag`'s loop: dispatch
one already-split and trimmed `key=value` token into the constraints map.
Unrecognized keys and unparseable values fall through, leaving the map
unchanged. -/
def switchKey (constraints : Schema) (key value : String) : Schema :=
  if key = "minimum" ∨ key = "min" then
    match goParseFloat value with
    | some num => constraints.set PropMinimum (.num num)
    | none => constraints
  else if key = "maximum" ∨ key = "max" then
    match goParseFloat value with
    | some num => constraints.set PropMaximum (.num num)
    | none => constraints
  else if key = "exclusiveMinimum" then
    match goParseFloat value with
    | some num => constraints.set PropExclusiveMinimum (.num num)
    | none => constraints
  else if key = "exclusiveMaximum" then
    match goParseFloat value with
    | some num => constraints.set PropExclusiveMaximum (.num num)
    | none => constraints
  else if key = "multipleOf" then
    match goParseFloat value with
    | some num => constraints.set PropMultipleOf (.num num)
    | none => constraints
  else if key = "pattern" then
    constraints.set PropPattern (.str value)
  else if key = "format" then
    if validFormats.contains value then constraints.set PropFormat (.str value)
    else constraints
  else if key = "minItems" then
    match goAtoi value with
    | some num => constraints.set PropMinItems (.intV num)
    | none => constraints
  else if key = "maxItems" then
    match goAtoi value with
    | some num => constraints.set PropMaxItems (.intV num)
    | none => constraints
  else constraints

/-- The `for _, part := range parts` loop of `parseValidationTag`: trim each
segment, skip empty ones, and process `key=value` segments (the `=`-free
segments — including the literal `required` token — are ignored here). -/
def parseValidationParts : List (List Char) → Schema → Schema
  | [], constraints => constraints
  | p :: rest, constraints =>
    let part := trimSpaceL p
    if part = [] then parseValidationParts rest constraints
    else if part.contains '=' then
      let kv := splitTwoL '=' part
      let key := String.mk (trimSpaceL kv.1)
      let value := String.mk (trimSpaceL kv.2)
      parseValidationParts rest (switchKey constraints key value)
    else parseValidationParts rest constraints

/-- `parseValidationTag`: parse a `validate` tag into a constraints map. -/
def parseValidationTag (tag : String) : Schema :=
  if tag = "" then .nil
  else parseValidationParts (splitOnCharL ',' tag.toList) .nil

/-- `isRequiredField`: the four-step requiredness policy.  The field's
declared type stands in for the `reflect.StructField` argument, of which
only `field.Type.Kind() != reflect.Ptr` is consulted. -/
def isRequiredField (fieldType : GoType) (omitempty : Bool)
    (validationTag : String) : Bool :=
  if omitempty then false
  else if goContains validationTag ("required") then true
  else if !goContains validationTag ("omitempty") && !fieldType.isPtr then true
  else false

/-! ## `schema.go` -/

/-- The `for key, value := range constraints` merge loop of
`generateStructSchema`: assign every constraint entry into the field's
schema fragment.  (Go ranges over the map in unspecified order; since the
constraint keys are pairwise distinct, the resulting map does not depend on
that order, and the embedding applies them in list order.) -/
def mergeConstraints : Schema → Schema → Schema
  | s, .nil => s
  | s, .cons k v rest => mergeConstraints (s.set k v) rest

/-- The schema-assembly tail of `generateStructSchema`: wrap the
accumulated `properties` map and `required` list into
`{type: object, properties: …, additionalProperties: false}`, adding the
`required` key only when the list is non-empty. -/
def mkObjectSchema (pr : Schema × List String) : Schema :=
  let schema : Schema :=
    .cons PropType (.str TypeObject)
      (.cons PropProperties (.obj pr.1)
        (.cons PropAdditionalProperties (.boolV false) .nil))
  match pr.2 with
  | [] => schema
  | _ :: _ => schema.set PropRequired (.strList pr.2)

mutual
/-- `generateSchema`: dereference one level of pointer, then map the kind —
basic kinds via `getTypeSchema`, slices/arrays to `array` schemas,
maps to `object` schemas (value schema kept only for string keys), structs
to `generateStructSchema`, anything else to the `{type: object}` fallback.
The pointer arm repeats the kind dispatch on the pointee because Go
dereferences at most once per call. -/
def generateSchema : GoType → Schema
  | .prim k => .cons PropType (.str (primTypeName k)) .nil
  | .sliceOf e =>
      .cons PropType (.str TypeArray) (.cons PropItems (.obj (generateSchema e)) .nil)
  | .arrayOf e =>
      .cons PropType (.str TypeArray) (.cons PropItems (.obj (generateSchema e)) .nil)
  | .mapOf kt vt =>
      if kt.isStringKind = false then .cons PropType (.str TypeObject) .nil
      else
        .cons PropType (.str TypeObject)
          (.cons PropAdditionalProperties (.obj (generateSchema vt)) .nil)
  | .structOf fs => mkObjectSchema (buildFields fs .nil [])
  | .otherKind _ => .cons PropType (.str TypeObject) .nil
  | .ptrTo u =>
    match u with
    | .prim k => .cons PropType (.str (primTypeName k)) .nil
    | .sliceOf e =>
        .cons PropType (.str TypeArray) (.cons PropItems (.obj (generateSchema e)) .nil)
    | .arrayOf e =>
        .cons PropType (.str TypeArray) (.cons PropItems (.obj (generateSchema e)) .nil)
    | .mapOf kt vt =>
        if kt.isStringKind = false then .cons PropType (.str TypeObject) .nil
        else
          .cons PropType (.str TypeObject)
            (.cons PropAdditionalProperties (.obj (generateSchema vt)) .nil)
    | .structOf fs => mkObjectSchema (buildFields fs .nil [])
    | .otherKind _ => .cons PropType (.str TypeObject) .nil
    | .ptrTo _ => .cons PropType (.str TypeObject) .nil
termination_by structural t => t

/-- The field loop of `generateStructSchema`, threading the `properties`
map and the `required` list: skip unexported fields, parse the `json` tag,
skip on `"-"`, resolve the property name, build and enrich the field's
schema, and record requiredness. -/
def buildFields : FieldList → Schema → List String → Schema × List String
  | .nil, props, required => (props, required)
  | .cons (.mk name exported jsonTag validationTag ty) rest, props, required =>
    if !exported then buildFields rest props required
    else
      let parsed := parseJSONTag jsonTag
      let jsonName0 := parsed.1
      let omitempty := parsed.2.1
      let skip := parsed.2.2
      if skip then buildFields rest props required
      else
        let jsonName := if jsonName0 = "" then name else jsonName0
        let fieldSchema0 := generateSchema ty
        let fieldSchema :=
          if validationTag ≠ "" then
            mergeConstraints fieldSchema0 (parseValidationTag validationTag)
          else fieldSchema0
        let required' :=
          if isRequiredField ty omitempty validationTag then required ++ [jsonName]
          else required
        buildFields rest (props.set jsonName (.obj fieldSchema)) required'
termination_by structural fs => fs

end

/-- `generateStructSchema`: the object schema of a struct type — run the
field loop, then assemble `{type: object, properties: …,
additionalProperties: false}` plus the `required` list when non-empty.
(`generateSchema`'s struct arms use the same composition directly so that
the mutual recursion stays structural.) -/
def generateStructSchema (fs : FieldList) : Schema :=
  mkObjectSchema (buildFields fs .nil [])

/-! ## The entry point `Generate` -/

/-- The dynamic value inside the `any` argument, coarsely: either a typed
nil pointer or any other (concrete) value.  `Generate` reads only the
dynamic type (`reflect.TypeOf`), never the value. -/
inductive GoVal : Type where
  | nilPointer : GoVal
  | concrete : GoVal
deriving DecidableEq, Repr

/-- The single pointer dereference at the top of `Generate`
(`if t.Kind() == reflect.Ptr { t = t.Elem() }`). -/
def stripPtr : GoType → GoType
  | .ptrTo u => u
  | t => t

/-- `Generate`: the `any` argument is `none` for the untyped nil interface
and otherwise carries its dynamic type and value.  Reject nil, dereference
one pointer level, reject non-structs naming the offending kind, else build
the schema. -/
def Generate : Option (GoType × GoVal) → Except String Schema
  | none => .error ("cannot generate schema from nil value")
  | some tv =>
    let t1 := stripPtr tv.1
    if t1.isStruct = false then
      .error ("expected struct type, got " ++ t1.kindName)
    else .ok (generateSchema t1)

/-! ## Basic lemmas about `Schema.get?` and `Schema.set` -/

theorem Schema.get?_set : (s : Schema) → (k : String) → (v : JValue) → (k' : String) →
    (s.set k v).get? k' = if k' = k then some v else s.get? k'
  | .nil, k, v, k' => by
    by_cases h : k' = k <;> simp [Schema.set, Schema.get?, h]
  | .cons k0 v0 rest, k, v, k' => by
    by_cases h0 : k = k0
    · subst h0
      by_cases h : k' = k <;> simp [Schema.set, Schema.get?, h]
    · by_cases h : k' = k0
      · subst h
        have h' : ¬k' = k := fun hh => h0 hh.symm
        simp [Schema.set, Schema.get?, h0, h']
      · simp [Schema.set, Schema.get?, h0, h, Schema.get?_set rest k v k']

theorem Schema.get?_set_self (s : Schema) (k : String) (v : JValue) :
    (s.set k v).get? k = some v := by
  simp [Schema.get?_set]

theorem Schema.get?_set_ne (s : Schema) (k : String) (v : JValue) (k' : String)
    (h : k' ≠ k) : (s.set k v).get? k' = s.get? k' := by
  simp [Schema.get?_set, h]

theorem Schema.keys_set : (s : Schema) → (k : String) → (v : JValue) → (k' : String) →
    k' ∈ (s.set k v).keys → k' = k ∨ k' ∈ s.keys
  | .nil, k, v, k', h => by simpa [Schema.set, Schema.keys] using h
  | .cons k0 v0 rest, k, v, k', h => by
    by_cases h0 : k = k0
    · subst h0
      simpa [Schema.set, Schema.keys, or_comm] using h
    · rcases (by simpa [Schema.set, Schema.keys, h0] using h) with h1 | h1
      · exact Or.inr (by simp [Schema.keys, h1])
      · rcases Schema.keys_set rest k v k' h1 with h2 | h2
        · exact Or.inl h2
        · exact Or.inr (by simp [Schema.keys, h2])

theorem Schema.get?_eq_none_of_not_mem_keys : (s : Schema) → (k : String) →
    k ∉ s.keys → s.get? k = none
  | .nil, k, _ => by simp [Schema.get?]
  | .cons k0 v0 rest, k, h => by
    have h1 : k ≠ k0 := fun hh => h (by simp [Schema.keys, hh])
    have h2 : k ∉ rest.keys := fun hh => h (by simp [Schema.keys, hh])
    simp [Schema.get?, h1, Schema.get?_eq_none_of_not_mem_keys rest k h2]

/-! ## The requiredness policy, as the spec states it -/

/-- The four-step requiredness precedence exactly as the spec words it:
(1) `omitWhenEmpty` → not required; (2) raw validation annotation contains
the substring `required` → required; (3) raw validation annotation does not
contain `omitempty` and the declared type is not a pointer kind → required;
(4) otherwise not required. -/
def requiredPolicySpec (fieldType : GoType) (omitWhenEmpty : Bool)
    (validationRaw : String) : Bool :=
  if omitWhenEmpty then false
  else if goContains validationRaw ("required") then true
  else if !goContains validationRaw ("omitempty") && !fieldType.isPtr then true
  else false

theorem isRequiredField_eq_requiredPolicySpec (ty : GoType) (om : Bool)
    (vt : String) : isRequiredField ty om vt = requiredPolicySpec ty om vt := rfl

/-- The names the requiredness policy admits to the `required` list, in
field declaration order: exported, not skipped by the `json` tag, resolved
name (tag name if non-empty, else the field's declared name), kept when the
four-step policy says required. -/
def requiredNames : FieldList → List String
  | .nil => []
  | .cons (.mk name exported jsonTag validationTag ty) rest =>
    let parsed := parseJSONTag jsonTag
    let resolved := if parsed.1 = "" then name else parsed.1
    if exported && !parsed.2.2 && requiredPolicySpec ty parsed.2.1 validationTag then
      resolved :: requiredNames rest
    else requiredNames rest

/-- The `required` accumulator of the field loop collects exactly the
policy's names, appended in declaration order. -/
theorem buildFields_required : (fs : FieldList) → (props : Schema) →
    (req : List String) → (buildFields fs props req).2 = req ++ requiredNames fs
  | .nil, _, req => by simp [buildFields, requiredNames]
  | .cons (.mk n ex jt vt ty) rest, props, req => by
    cases hex : ex with
    | false =>
      simp [buildFields, requiredNames, hex, buildFields_required rest props req]
    | true =>
      cases hsk : (parseJSONTag jt).2.2 with
      | true =>
        simp [buildFields, requiredNames, hex, hsk, buildFields_required rest props req]
      | false =>
        cases hreq : isRequiredField ty (parseJSONTag jt).2.1 vt with
        | false =>
          rw [isRequiredField_eq_requiredPolicySpec] at hreq
          simp [buildFields, requiredNames, hex, hsk, hreq,
            isRequiredField_eq_requiredPolicySpec, buildFields_required rest]
        | true =>
          rw [isRequiredField_eq_requiredPolicySpec] at hreq
          simp [buildFields, requiredNames, hex, hsk, hreq,
            isRequiredField_eq_requiredPolicySpec, buildFields_required rest]

/-- Lookups on a struct's object schema: `type`, `properties` and
`additionalProperties` are always present with the fixed values, whether or
not the `required` key was added. -/
theorem generateStructSchema_get?_base (fs : FieldList) :
    (generateStructSchema fs).get? PropType = some (.str TypeObject)
    ∧ (generateStructSchema fs).get? PropProperties =
        some (.obj (buildFields fs .nil []).1)
    ∧ (generateStructSchema fs).get? PropAdditionalProperties =
        some (.boolV false) := by
  unfold generateStructSchema mkObjectSchema
  cases hn : (buildFields fs Schema.nil []).2 with
  | nil =>
    simp [hn, Schema.get?, PropType, PropProperties, PropAdditionalProperties]
  | cons a l =>
    simp only [hn]
    refine ⟨?_, ?_, ?_⟩ <;>
      rw [Schema.get?_set_ne _ _ _ _ (by decide)] <;>
      simp [Schema.get?, PropType, PropProperties, PropAdditionalProperties]

/-- C1: for every exported, non-skipped field of a record, the field is
marked required exactly when the four-step precedence yields required:
`isRequiredField` coincides with the spec's four-step policy
(`requiredPolicySpec`), the field loop's `required` accumulator collects
exactly the names the policy admits (in declaration order), and in
particular a field with naming annotation `"age,omitempty"` and validation
annotation `"required,minimum=0"` is not required (its struct schema has no
`required` key). -/
theorem required_field_four_step_policy :
    (∀ (ty : GoType) (om : Bool) (vt : String),
      isRequiredField ty om vt = requiredPolicySpec ty om vt)
  ∧ (∀ (fs : FieldList) (props : Schema) (req : List String),
      (buildFields fs props req).2 = req ++ requiredNames fs)
  ∧ (generateStructSchema
      (.cons (.mk "Age" true "age,omitempty" "required,minimum=0" (.prim .int))
        .nil)).get? PropRequired = none :=
  ⟨isRequiredField_eq_requiredPolicySpec, buildFields_required, by decide⟩

/-- C2: `Generate` fails exactly when the argument is the untyped nil or
its kind after one pointer dereference is not a struct; the error message
names the offending kind; and every accepted root yields
`generateStructSchema` of its fields — a total function, so nested schema
construction cannot fail. -/
theorem generate_error_iff_non_struct_root :
    (Generate none = .error ("cannot generate schema from nil value"))
  ∧ (∀ (t : GoType) (v : GoVal), (stripPtr t).isStruct = false →
      Generate (some (t, v)) =
        .error ("expected struct type, got " ++ (stripPtr t).kindName))
  ∧ (∀ (t : GoType) (v : GoVal) (fs : FieldList), stripPtr t = .structOf fs →
      Generate (some (t, v)) = .ok (generateStructSchema fs)) := by
  refine ⟨rfl, ?_, ?_⟩
  · intro t v h
    simp [Generate, h]
  · intro t v fs h
    simp [Generate, h, GoType.isStruct, generateSchema, generateStructSchema]

theorem generate_error_iff_non_struct_root_witness :
    (Generate (some (.prim .string, .concrete)) =
      .error ("expected struct type, got string"))
  ∧ (Generate (some (.ptrTo (.structOf .nil), .concrete)) =
      .ok (generateStructSchema .nil)) :=
  ⟨generate_error_iff_non_struct_root.2.1 (.prim .string) .concrete (by decide),
   generate_error_iff_non_struct_root.2.2 (.ptrTo (.structOf .nil)) .concrete
     .nil rfl⟩

/-- C3 counterexample: the claim says the first comma-segment of a `json`
tag is trimmed before becoming the exposed name, but on `" x ,omitempty"`
the code keeps the segment verbatim (`" x "`), not its trim (`"x"`). -/
theorem parseJSONTag_name_not_trimmed :
    (parseJSONTag (" x ,omitempty")).1 = " x "
    ∧ (parseJSONTag (" x ,omitempty")).1 ≠ trimSpace (" x ") := by decide

/-- C3 (amended: the first segment becomes `exposedName` verbatim, without
trimming): empty input gives the defaults, `"-"` gives `skip` (and a
skipped field contributes nothing to the field loop), and any other input
splits on `,` with the first segment as the name and later segments setting
`omitWhenEmpty` when they trim to `omitempty`, all others ignored. -/
theorem parseJSONTag_contract_amended :
    parseJSONTag ("") = ("", false, false)
  ∧ parseJSONTag ("-") = ("", false, true)
  ∧ (∀ tag : String, tag ≠ "" → tag ≠ "-" →
      parseJSONTag tag =
        (String.mk ((splitOnCharL ',' tag.toList).headD []),
         ((splitOnCharL ',' tag.toList).drop 1).any
           (fun p => trimSpaceL p = ("omitempty").toList),
         false))
  ∧ (∀ (n : String) (ex : Bool) (vt : String) (ty : GoType)
       (rest : FieldList) (props : Schema) (req : List String),
      buildFields (.cons (.mk n ex "-" vt ty) rest) props req =
        buildFields rest props req) := by
  refine ⟨by decide, by decide, ?_, ?_⟩
  · intro tag h1 h2
    simp [parseJSONTag, h1, h2]
  · intro n ex vt ty rest props req
    have hskip : parseJSONTag ("-") = ("", false, true) := by decide
    cases hex : ex <;> simp [buildFields, hex, hskip]

theorem parseJSONTag_contract_amended_witness :
    parseJSONTag ("age,omitempty") =
      (String.mk ((splitOnCharL ',' ("age,omitempty").toList).headD []),
       ((splitOnCharL ',' ("age,omitempty").toList).drop 1).any
         (fun p => trimSpaceL p = ("omitempty").toList),
       false) :=
  parseJSONTag_contract_amended.2.2.1 ("age,omitempty") (by decide) (by decide)

/-- C6: a string-keyed map maps to `{type: object, additionalProperties:
<value schema>}` (recursively), a map with a non-string key maps to
`{type: object}` alone with no error, and in particular
`map[string]int` yields `{type: object, additionalProperties:
{type: integer}}`. -/
theorem map_kind_schema_mapping :
    (∀ kt vt : GoType,
      generateSchema (.mapOf kt vt) =
        if kt.isStringKind then
          .cons PropType (.str TypeObject)
            (.cons PropAdditionalProperties (.obj (generateSchema vt)) .nil)
        else .cons PropType (.str TypeObject) .nil)
  ∧ generateSchema (.mapOf (.prim .string) (.prim .int)) =
      .cons PropType (.str TypeObject)
        (.cons PropAdditionalProperties
          (.obj (.cons PropType (.str TypeInteger) .nil)) .nil) := by
  constructor
  · intro kt vt
    cases hk : kt.isStringKind <;> simp [generateSchema, hk]
  · decide

/-- C10: `Generate` depends only on the argument's dynamic type, so a typed
nil pointer to a struct is accepted and yields exactly the schema of a
non-nil value of that struct type. -/
theorem typed_nil_pointer_accepted :
    (∀ (t : GoType) (v1 v2 : GoVal),
      Generate (some (t, v1)) = Generate (some (t, v2)))
  ∧ (∀ fs : FieldList,
      Generate (some (.ptrTo (.structOf fs), .nilPointer)) =
        .ok (generateStructSchema fs)
      ∧ Generate (some (.ptrTo (.structOf fs), .nilPointer)) =
          Generate (some (.structOf fs, .concrete))) := by
  constructor
  · intro t v1 v2
    rfl
  · intro fs
    constructor <;>
      simp [Generate, stripPtr, GoType.isStruct, generateSchema,
        generateStructSchema]

/-- C5: the `required` key of a struct's object schema is present exactly
when at least one field resolves to required — never as an empty list —
and then holds the resolved property names in field declaration order
(`requiredNames`). -/
theorem required_list_iff_nonempty_in_declaration_order (fs : FieldList) :
    (generateStructSchema fs).get? PropRequired =
      if requiredNames fs = [] then none
      else some (.strList (requiredNames fs)) := by
  have hreq : (buildFields fs Schema.nil []).2 = requiredNames fs := by
    simpa using buildFields_required fs Schema.nil []
  unfold generateStructSchema mkObjectSchema
  rw [hreq]
  cases hn : requiredNames fs with
  | nil =>
    simp [Schema.get?, PropRequired, PropType, PropProperties,
      PropAdditionalProperties]
  | cons a l =>
    simp [Schema.get?_set_self]

/-! ## Key discipline of the constraint parser (for C4) -/

/-- The keys `parseValidationTag` can ever store. -/
def constraintKeys : List String :=
  [PropMinimum, PropMaximum, PropExclusiveMinimum, PropExclusiveMaximum,
   PropMultipleOf, PropPattern, PropFormat, PropMinItems, PropMaxItems]

set_option maxHeartbeats 1000000 in
/-- One dispatch step either leaves the constraints unchanged or stores a
single constraint key. -/
theorem switchKey_cases (c : Schema) (k v : String) :
    switchKey c k v = c ∨
    ∃ key val, key ∈ constraintKeys ∧ (∀ w, val = JValue.str w → w = v) ∧
      switchKey c k v = c.set key val := by
  unfold switchKey
  split_ifs
  all_goals try
    first
    | exact Or.inl rfl
    | exact Or.inr ⟨_, _, by simp [constraintKeys],
        fun w hw => by injection hw with h1; exact h1.symm, rfl⟩
  all_goals try
    first
    | (cases goParseFloat v with
       | none => exact Or.inl rfl
       | some num =>
         exact Or.inr ⟨_, _, by simp [constraintKeys],
           by intro w hw; exact JValue.noConfusion hw, rfl⟩)
    | (cases goAtoi v with
       | none => exact Or.inl rfl
       | some num =>
         exact Or.inr ⟨_, _, by simp [constraintKeys],
           by intro w hw; exact JValue.noConfusion hw, rfl⟩)

/-- One dispatch step only adds keys from `constraintKeys`. -/
theorem switchKey_keys_sub (c : Schema) (k v : String) (k' : String)
    (hc : ∀ kk ∈ c.keys, kk ∈ constraintKeys)
    (h : k' ∈ (switchKey c k v).keys) : k' ∈ constraintKeys := by
  rcases switchKey_cases c k v with he | ⟨key, val, hkey, _, he⟩
  · exact hc k' (he ▸ h)
  · rw [he] at h
    rcases Schema.keys_set c key val k' h with h1 | h1
    · exact h1 ▸ hkey
    · exact hc k' h1

/-- The parsing loop only adds keys from `constraintKeys`. -/
theorem parseValidationParts_keys_sub : (parts : List (List Char)) →
    (acc : Schema) → (hc : ∀ kk ∈ acc.keys, kk ∈ constraintKeys) →
    ∀ k' ∈ (parseValidationParts parts acc).keys, k' ∈ constraintKeys
  | [], acc, hc => hc
  | p :: rest, acc, hc => by
    intro k' h
    simp only [parseValidationParts] at h
    split_ifs at h with h1 h2
    · exact parseValidationParts_keys_sub rest acc hc k' h
    · refine parseValidationParts_keys_sub rest _ ?_ k' h
      intro kk hkk
      exact switchKey_keys_sub acc _ _ kk hc hkk
    · exact parseValidationParts_keys_sub rest acc hc k' h

/-- Every key a parsed `validate` tag stores is a constraint key. -/
theorem parseValidationTag_keys_sub (tag : String) :
    ∀ k' ∈ (parseValidationTag tag).keys, k' ∈ constraintKeys := by
  unfold parseValidationTag
  split_ifs
  · intro k' h
    simp [Schema.keys] at h
  · exact parseValidationParts_keys_sub _ _ (by intro kk h; simp [Schema.keys] at h)

/-- Merging a constraint map never touches keys outside it. -/
theorem mergeConstraints_get?_of_keys_sub : (s c : Schema) → (key : String) →
    (hc : ∀ kk ∈ c.keys, kk ∈ constraintKeys) → key ∉ constraintKeys →
    (mergeConstraints s c).get? key = s.get? key
  | s, .nil, key, _, _ => rfl
  | s, .cons k0 v0 rest, key, hc, hk => by
    have hk0 : key ≠ k0 := by
      intro hh
      exact hk (hh ▸ hc k0 (by simp [Schema.keys]))
    have hrest : ∀ kk ∈ rest.keys, kk ∈ constraintKeys := by
      intro kk h
      exact hc kk (by simp [Schema.keys, h])
    calc (mergeConstraints (s.set k0 v0) rest).get? key
        = (s.set k0 v0).get? key :=
          mergeConstraints_get?_of_keys_sub (s.set k0 v0) rest key hrest hk
      _ = s.get? key := Schema.get?_set_ne s k0 v0 key hk0

/-- C4: every object schema derived from a record — root or nested — has
`type: object`, a `properties` mapping, and `additionalProperties: false`
(every record anywhere in the tree goes through `generateStructSchema`,
and merging a field's validation constraints never touches those three
keys, so the invariant survives constraint enrichment). -/
theorem struct_schema_closed_object_invariant :
    (∀ fs : FieldList,
      (generateStructSchema fs).get? PropType = some (.str TypeObject)
      ∧ (∃ props : Schema,
          (generateStructSchema fs).get? PropProperties = some (.obj props))
      ∧ (generateStructSchema fs).get? PropAdditionalProperties =
          some (.boolV false))
  ∧ (∀ (s : Schema) (tag : String),
      (mergeConstraints s (parseValidationTag tag)).get? PropType =
        s.get? PropType
      ∧ (mergeConstraints s (parseValidationTag tag)).get? PropProperties =
          s.get? PropProperties
      ∧ (mergeConstraints s (parseValidationTag tag)).get?
          PropAdditionalProperties = s.get? PropAdditionalProperties) := by
  constructor
  · intro fs
    refine ⟨(generateStructSchema_get?_base fs).1,
      ⟨_, (generateStructSchema_get?_base fs).2.1⟩,
      (generateStructSchema_get?_base fs).2.2⟩
  · intro s tag
    refine ⟨?_, ?_, ?_⟩ <;>
      exact mergeConstraints_get?_of_keys_sub s _ _
        (parseValidationTag_keys_sub tag) (by decide)

/-! ## C7: splitting a token on the first `=` -/

/-- The first-`=` split: on `a ++ "=" ++ b` with no `=` in `a`, the key part
is `a` and the value part is all of `b`, later `=`s included. -/
theorem splitTwoL_first : (a : List Char) → (b : List Char) →
    a.contains '=' = false → splitTwoL '=' (a ++ '=' :: b) = (a, b)
  | [], b, _ => by simp [splitTwoL]
  | c :: as, b, h => by
    have hc : (c == '=') = false := by
      cases hcc : c == '=' <;> simp_all [List.contains_cons]
    have has : as.contains '=' = false := by
      cases hcc : as.contains '=' <;> simp_all [List.contains_cons]
    simp [splitTwoL, hc, splitTwoL_first as b has]

/-- C7: a validation token containing `=` splits on the first `=` only, so
a value may itself contain `=` without truncation — in particular
`pattern=^a=b$` stores the pattern `^a=b$`. -/
theorem validation_token_splits_on_first_eq :
    (∀ (a b : List Char), a.contains '=' = false →
      splitTwoL '=' (a ++ '=' :: b) = (a, b))
  ∧ (parseValidationTag ("pattern=^a=b$")).get? PropPattern =
      some (.str ("^a=b$")) :=
  ⟨splitTwoL_first, by decide⟩

theorem validation_token_splits_on_first_eq_witness :
    splitTwoL '=' (("pattern").toList ++ '=' :: ("^a=b$").toList) =
      (("pattern").toList, ("^a=b$").toList) :=
  validation_token_splits_on_first_eq.1 (("pattern").toList)
    (("^a=b$").toList) (by decide)

/-! ## C8: the leniency of the constraint parser -/

/-- The keys `switchKey` recognises at all. -/
def recognizedKeys : List String :=
  ["minimum", "min", "maximum", "max", "exclusiveMinimum",
   "exclusiveMaximum", "multipleOf", "pattern", "format",
   "minItems", "maxItems"]

/-- C8: `parseValidationTag` is a total function that never surfaces an
error: a `format` value is stored iff it is in the enumerated set, a
numeric constraint whose value fails to parse is dropped silently (float
keys and integer keys alike), a token with an unrecognized key is dropped
silently, and in particular `format=email` is retained while
`format=bogus` is dropped without error. -/
theorem validation_parsing_leniency :
    (∀ (c : Schema) (v : String),
      switchKey c ("format") v =
        if validFormats.contains v then c.set PropFormat (.str v) else c)
  ∧ (∀ (c : Schema) (k v : String),
      (k = "minimum" ∨ k = "min" ∨ k = "maximum" ∨ k = "max" ∨
       k = "exclusiveMinimum" ∨ k = "exclusiveMaximum" ∨ k = "multipleOf") →
      goParseFloat v = none → switchKey c k v = c)
  ∧ (∀ (c : Schema) (k v : String), (k = "minItems" ∨ k = "maxItems") →
      goAtoi v = none → switchKey c k v = c)
  ∧ (∀ (c : Schema) (k v : String), k ∉ recognizedKeys → switchKey c k v = c)
  ∧ (parseValidationTag ("format=email")).get? PropFormat =
      some (.str ("email"))
  ∧ parseValidationTag ("format=bogus") = Schema.nil := by
  refine ⟨?_, ?_, ?_, ?_, by decide, by decide⟩
  · intro c v
    unfold switchKey
    rw [if_neg (by decide), if_neg (by decide), if_neg (by decide),
        if_neg (by decide), if_neg (by decide), if_neg (by decide),
        if_pos (by decide)]
  · intro c k v hk hv
    rcases hk with rfl | rfl | rfl | rfl | rfl | rfl | rfl <;>
      unfold switchKey <;> simp [hv]
  · intro c k v hk hv
    rcases hk with rfl | rfl <;> unfold switchKey <;> simp [hv]
  · intro c k v hk
    have h1 : ¬(k = "minimum" ∨ k = "min") := by
      rintro (rfl | rfl) <;> exact hk (by simp [recognizedKeys])
    have h2 : ¬(k = "maximum" ∨ k = "max") := by
      rintro (rfl | rfl) <;> exact hk (by simp [recognizedKeys])
    have h3 : ¬k = "exclusiveMinimum" :=
      fun hh => hk (by simp [recognizedKeys, hh])
    have h4 : ¬k = "exclusiveMaximum" :=
      fun hh => hk (by simp [recognizedKeys, hh])
    have h5 : ¬k = "multipleOf" := fun hh => hk (by simp [recognizedKeys, hh])
    have h6 : ¬k = "pattern" := fun hh => hk (by simp [recognizedKeys, hh])
    have h7 : ¬k = "format" := fun hh => hk (by simp [recognizedKeys, hh])
    have h8 : ¬k = "minItems" := fun hh => hk (by simp [recognizedKeys, hh])
    have h9 : ¬k = "maxItems" := fun hh => hk (by simp [recognizedKeys, hh])
    unfold switchKey
    rw [if_neg h1, if_neg h2, if_neg h3, if_neg h4, if_neg h5, if_neg h6,
        if_neg h7, if_neg h8, if_neg h9]

theorem validation_parsing_leniency_witness :
    (switchKey .nil ("minimum") ("abc") = .nil)
  ∧ (switchKey .nil ("minItems") ("abc") = .nil)
  ∧ (switchKey .nil ("wibble") ("1") = .nil) :=
  ⟨validation_parsing_leniency.2.1 .nil ("minimum") ("abc")
     (Or.inl rfl) (by decide),
   validation_parsing_leniency.2.2.1 .nil ("minItems") ("abc")
     (Or.inl rfl) (by decide),
   validation_parsing_leniency.2.2.2.1 .nil ("wibble") ("1") (by decide)⟩

/-! ## C9: stored string values never contain the separator -/

theorem mem_of_mem_dropWhile {p : Char → Bool} : (l : List Char) → (c : Char) →
    c ∈ l.dropWhile p → c ∈ l
  | [], _, h => by simp at h
  | a :: as, c, h => by
    by_cases ha : p a = true
    · rw [List.dropWhile_cons, if_pos ha] at h
      exact List.mem_cons_of_mem a (mem_of_mem_dropWhile as c h)
    · rw [List.dropWhile_cons, if_neg ha] at h
      exact h

theorem mem_of_mem_trimSpaceL (l : List Char) (c : Char)
    (h : c ∈ trimSpaceL l) : c ∈ l := by
  unfold trimSpaceL at h
  rw [List.mem_reverse] at h
  have h1 := mem_of_mem_dropWhile _ _ h
  rw [List.mem_reverse] at h1
  exact mem_of_mem_dropWhile _ _ h1

theorem mem_of_mem_splitTwoL {sep : Char} : (l : List Char) → (c : Char) →
    (c ∈ (splitTwoL sep l).1 → c ∈ l) ∧ (c ∈ (splitTwoL sep l).2 → c ∈ l)
  | [], c => by simp [splitTwoL]
  | a :: as, c => by
    by_cases ha : (a == sep) = true
    · rw [splitTwoL, if_pos ha]
      exact ⟨fun h => by simp at h, fun h => List.mem_cons_of_mem a h⟩
    · rw [splitTwoL, if_neg ha]
      refine ⟨fun h => ?_, fun h => ?_⟩
      · rcases List.mem_cons.mp h with rfl | h1
        · exact List.mem_cons_self c as
        · exact List.mem_cons_of_mem a ((mem_of_mem_splitTwoL as c).1 h1)
      · exact List.mem_cons_of_mem a ((mem_of_mem_splitTwoL as c).2 h)

/-- Segments produced by a split never contain the separator. -/
theorem not_mem_of_mem_splitOnCharL (sep : Char) : (l : List Char) →
    (seg : List Char) → seg ∈ splitOnCharL sep l → sep ∉ seg
  | [], seg, h => by
    have h1 : seg = [] := by simpa [splitOnCharL] using h
    simp [h1]
  | c :: cs, seg, h => by
    by_cases hc : (c == sep) = true
    · rw [splitOnCharL, if_pos hc] at h
      rcases List.mem_cons.mp h with rfl | h1
      · simp
      · exact not_mem_of_mem_splitOnCharL sep cs seg h1
    · rw [splitOnCharL, if_neg hc] at h
      rcases hsplit : splitOnCharL sep cs with _ | ⟨s, rest⟩
      · rw [hsplit] at h
        have h1 : seg = [c] := by simpa using h
        subst h1
        intro hmem
        have h2 : sep = c := by simpa using hmem
        exact hc (by simp [h2])
      · rw [hsplit] at h
        rcases List.mem_cons.mp h with rfl | h1
        · intro hmem
          rcases List.mem_cons.mp hmem with heq | h2
          · exact hc (by simp [heq])
          · refine not_mem_of_mem_splitOnCharL sep cs s ?_ h2
            rw [hsplit]
            exact List.mem_cons_self s rest
        · refine not_mem_of_mem_splitOnCharL sep cs seg ?_
          rw [hsplit]
          exact List.mem_cons_of_mem s h1

/-- All string values stored in a schema fragment avoid the character
`sep`. -/
def strValuesFree (sep : Char) (s : Schema) : Prop :=
  ∀ (k : String) (v : String), s.get? k = some (.str v) → sep ∉ v.toList

theorem strValuesFree_set (sep : Char) (s : Schema)
    (hs : strValuesFree sep s) (k : String) (v : JValue)
    (hv : ∀ w, v = JValue.str w → sep ∉ w.toList) :
    strValuesFree sep (s.set k v) := by
  intro k' w h
  rw [Schema.get?_set] at h
  by_cases hk : k' = k
  · rw [if_pos hk] at h
    exact hv w (Option.some.inj h)
  · rw [if_neg hk] at h
    exact hs k' w h

theorem strValuesFree_switchKey (sep : Char) (c : Schema) (k v : String)
    (hc : strValuesFree sep c) (hv : sep ∉ v.toList) :
    strValuesFree sep (switchKey c k v) := by
  rcases switchKey_cases c k v with he | ⟨key, val, _, hval, he⟩
  · rw [he]
    exact hc
  · rw [he]
    refine strValuesFree_set sep c hc key val ?_
    intro w hw
    exact (hval w hw) ▸ hv

theorem parseValidationParts_comma_free : (parts : List (List Char)) →
    (acc : Schema) → (hp : ∀ p ∈ parts, ',' ∉ p) →
    (hacc : strValuesFree ',' acc) →
    strValuesFree ',' (parseValidationParts parts acc)
  | [], acc, _, hacc => hacc
  | p :: rest, acc, hp, hacc => by
    have hrest : ∀ q ∈ rest, ',' ∉ q := fun q hq => hp q (by simp [hq])
    simp only [parseValidationParts]
    split_ifs with h1 h2
    · exact parseValidationParts_comma_free rest acc hrest hacc
    · refine parseValidationParts_comma_free rest _ hrest ?_
      refine strValuesFree_switchKey ',' acc _ _ hacc ?_
      intro hmem
      have h3 : ',' ∈ (splitTwoL '=' (trimSpaceL p)).2 :=
        mem_of_mem_trimSpaceL _ _ hmem
      have h4 : ',' ∈ trimSpaceL p := (mem_of_mem_splitTwoL _ _).2 h3
      exact hp p (List.mem_cons_self p rest) (mem_of_mem_trimSpaceL _ _ h4)
    · exact parseValidationParts_comma_free rest acc hrest hacc

/-- C9: because the annotation is split on `,` before any `key=value`
parsing, no stored string constraint value can contain a comma; in
particular `pattern=a,b` stores the pattern `"a"` and ignores the
separate `=`-free token `"b"`. -/
theorem stored_constraint_values_comma_free :
    (∀ (tag k v : String),
      (parseValidationTag tag).get? k = some (.str v) → ',' ∉ v.toList)
  ∧ parseValidationTag ("pattern=a,b") =
      Schema.cons PropPattern (.str ("a")) .nil := by
  constructor
  · intro tag k v h
    unfold parseValidationTag at h
    split_ifs at h with h0
    · simp [Schema.get?] at h
    · refine parseValidationParts_comma_free _ _ ?_ ?_ k v h
      · intro p hp
        exact not_mem_of_mem_splitOnCharL ',' _ p hp
      · intro k' w hw
        simp [Schema.get?] at hw
  · decide

theorem stored_constraint_values_comma_free_witness :
    ((parseValidationTag ("pattern=a,b")).get? PropPattern =
      some (.str ("a")))
  ∧ ',' ∉ ("a").toList :=
  ⟨by decide,
   stored_constraint_values_comma_free.1 ("pattern=a,b") PropPattern ("a")
     (by decide)⟩
